import Mathlib

/-!
# Verification of the `shelp` REPL engine

A shallow embedding of the `shelp` crate (an interactive line-editing engine
for building REPLs) together with proofs about its history store, its
persistence format, and its key-event state machine.

The embedding follows the Rust source:
* `src/repl/history.rs` — the bounded history store (`History`),
* `src/repl.rs` — the `Repl` struct and the event loop in `Repl::next`,
* `src/macros.rs` — the `history_up!` / `history_down!` macros,
* `src/lang.rs` — the `LangInterface` capability (its `get_indent` function is
  passed to the step function as an explicit parameter `g`).

Terminal I/O (queueing escape codes, printing) has no observable effect on the
program state other than through `print_lines`, which clamps the cursor column;
the embedding keeps exactly those state effects and additionally exposes the
final cursor column computed by `print_lines`.  Rust panics (string indexing at
a non-boundary byte offset, …) are modelled by `Option` / a `panicked` result.
-/

namespace Shelp

/-! ## Rust string primitives

Rust strings are UTF-8 byte buffers; `shelp` mixes *character* indices with
*byte* indices, so the byte structure matters.  We model a Rust `String` as a
Lean `String` (a list of unicode scalar values) and recover byte offsets from
the UTF-8 size of each scalar. -/

/-- Number of bytes of the UTF-8 encoding of a scalar value (Rust
`char::len_utf8`). -/
def charUtf8Size (c : Char) : Nat :=
  if c.val ≤ 0x7F then 1
  else if c.val ≤ 0x7FF then 2
  else if c.val ≤ 0xFFFF then 3
  else 4

/-- Total UTF-8 byte length of a character list (Rust `str::len`). -/
def utf8Len (cs : List Char) : Nat := (cs.map charUtf8Size).sum

/-- The character position whose byte offset in `s` is exactly `idx`, if `idx`
is a character boundary of `s` (including the end position). -/
def boundaryPos (s : String) (idx : Nat) : Option Nat :=
  (List.range (s.data.length + 1)).find? (fun k => utf8Len (s.data.take k) == idx)

/-- Rust `String::insert_str(idx, t)`: inserts at byte offset `idx`; panics
(`none`) when `idx` is not a character boundary. -/
def rustInsertStr (s : String) (idx : Nat) (t : String) : Option String :=
  (boundaryPos s idx).map (fun k => String.mk (s.data.take k ++ t.data ++ s.data.drop k))

/-- Rust `String::insert(idx, ch)`: inserts one character at byte offset `idx`;
panics (`none`) when `idx` is not a character boundary. -/
def rustInsertChar (s : String) (idx : Nat) (ch : Char) : Option String :=
  (boundaryPos s idx).map (fun k => String.mk (s.data.take k ++ ch :: s.data.drop k))

/-- Rust `String::remove(idx)`: removes the character starting at byte offset
`idx`; panics (`none`) when `idx` is not the start of a character. -/
def rustRemoveChar (s : String) (idx : Nat) : Option String :=
  match boundaryPos s idx with
  | some k => if k < s.data.length then some (String.mk (s.data.take k ++ s.data.drop (k + 1))) else none
  | none => none

/-- `get_byte_i` from `src/repl.rs`: the byte offset of the `i`-th character of
`string`, or the total byte length when there are fewer than `i + 1`
characters (`char_indices().nth(i).map(|c| c.0).unwrap_or(string.len())`). -/
def get_byte_i (s : String) (i : Nat) : Nat :=
  if i < s.data.length then utf8Len (s.data.take i) else utf8Len s.data

/-- Models Rust `s.trim().is_empty()`: every character of `s` is whitespace.
(Exactly `trim().is_empty()` for the ASCII whitespace appearing in this
development.) -/
def trimIsEmpty (s : String) : Bool := s.data.all Char.isWhitespace

/-- Models Rust `str::starts_with(pre)` for a string pattern. -/
def rStartsWith (l pre : String) : Bool := pre.data.isPrefixOf l.data

/-- Rust `" ".repeat(k)`. -/
def spaces (k : Nat) : String := String.mk (List.replicate k ' ')

/-- Rust `Vec::insert(n, a)` on a list (the out-of-range case `n > len`, which
panics in Rust and is unreachable in the embedded code, appends). -/
def listInsertIdx {α : Type} : Nat → α → List α → List α
  | 0, a, l => a :: l
  | _ + 1, a, [] => [a]
  | n + 1, a, x :: l => x :: listInsertIdx n a l

/-! ## Rust `str::lines`

`History::read_from_file` iterates `contents.lines()`.  Rust `lines()` splits
at `'\n'`, strips one `'\r'` from the end of every piece that was terminated by
`'\n'`, and yields a final unterminated piece only when it is nonempty (the
final piece keeps a trailing `'\r'`). -/

/-- One trailing `'\r'` removed, if present (Rust `strip_suffix('\r')` applied
to a `'\n'`-terminated piece). -/
def stripCrList (p : List Char) : List Char :=
  if p.getLast? = some '\r' then p.dropLast else p

/-- Worker for `rustLines`; `acc` holds the characters of the current piece in
reverse order. -/
def linesAux : List Char → List Char → List String
  | acc, [] => if acc.isEmpty then [] else [String.mk acc.reverse]
  | acc, c :: rest =>
    if c = '\n' then String.mk (stripCrList acc.reverse) :: linesAux [] rest
    else linesAux (c :: acc) rest

/-- Rust `str::lines()`. -/
def rustLines (s : String) : List String := linesAux [] s.data

/-! ## The history store (`src/repl/history.rs`)

`History` stores entries newest-first in a `VecDeque` allocated by
`VecDeque::with_capacity(capacity + 1)`; the `cap` field models the allocated
capacity reported by `VecDeque::capacity()`.  `VecDeque::with_capacity(n)`
guarantees `capacity() ≥ n` and yields exactly `n` for the sizes evaluated in
this development (the pre-1.67 ring-buffer implementation reports
`next_power_of_two(n + 1) - 1`, which is also `3` for `n = 3`), so the
constructor sets `cap := capacity + 1`. -/

structure History where
  /-- Commands newest-first: index 0 is the most recently pushed command. -/
  buffer : List (List String)
  /-- Navigation index (`iter_i`); `-1` means "not browsing". -/
  iterI : Int
  /-- Allocated capacity of the underlying `VecDeque`. -/
  cap : Nat
deriving DecidableEq, Repr

/-- `History::with_capacity` (the persistence path is external state and is
not part of the embedding). -/
def History.with_capacity (capacity : Nat) : History :=
  { buffer := [], iterI := -1, cap := capacity + 1 }

/-- `History::at_capacity`: `self.buffer.len() == self.buffer.capacity()`. -/
def History.at_capacity (h : History) : Bool := h.buffer.length == h.cap

/-- `History::reset_iter`. -/
def History.reset_iter (h : History) : History := { h with iterI := -1 }

/-- `History::push`: pop the oldest entry when at capacity, reset the
navigation index, and push the new entry to the front. -/
def History.push (h : History) (lines : List String) : History :=
  let buf := if h.at_capacity then h.buffer.dropLast else h.buffer
  { h with buffer := lines :: buf, iterI := -1 }

/-- `History::_len`. -/
def History.hlen (h : History) : Int := (h.buffer.length : Int)

/-- `History::_at`: `Some(&self.buffer[index])` for `index >= 0`, else `None`
(Rust panics when `index ≥ len`; that case is unreachable under the navigation
invariant and yields `none` here). -/
def History.atIdx (h : History) (index : Int) : Option (List String) :=
  if 0 ≤ index then h.buffer.get? index.toNat else none

/-- `History::cur`. -/
def History.cur (h : History) : Option (List String) :=
  if 0 < h.buffer.length then h.atIdx h.iterI else none

/-- `History::prev`, returning the yielded entry together with the updated
store (the `Cell` mutation made explicit): `iter_i + 1` is yielded and stored
when it is below the length. -/
def History.prevF (h : History) : Option (List String) × History :=
  if h.iterI + 1 < h.hlen then (h.atIdx (h.iterI + 1), { h with iterI := h.iterI + 1 })
  else (none, h)

/-- `History::next`, returning the yielded entry together with the updated
store: `iter_i - 1` is stored whenever it is at least `-1`, and yielded when it
is additionally nonnegative. -/
def History.nextF (h : History) : Option (List String) × History :=
  if -1 ≤ h.iterI - 1 then (h.atIdx (h.iterI - 1), { h with iterI := h.iterI - 1 })
  else (none, h)

/-- `History::clear`. -/
def History.clearAll (h : History) : History := { h with buffer := [], iterI := -1 }

/-- `History::write_to_file`, as the character content written to the file:
every line of every entry followed by `'\n'`, each entry terminated by a
`---` line, entries oldest-first. -/
def entryChars (lines : List String) : List Char :=
  (lines.map (fun l => l.data ++ ['\n'])).flatten ++ ['-', '-', '-', '\n']

/-- The characters produced by `History::write_to_file`. -/
def History.writeChars (h : History) : List Char :=
  ((h.buffer.reverse).map entryChars).flatten

/-- The file contents produced by `History::write_to_file`. -/
def History.write_to_file (h : History) : String := String.mk h.writeChars

/-- The loop of `History::read_from_file`: accumulate lines until a line
starting with `---`, then `push` the accumulated block.  Lines left in the
accumulator at the end of the file are discarded. -/
def readLoop : History → List String → List String → History
  | h, _, [] => h
  | h, acc, l :: rest =>
    if rStartsWith l "---" then readLoop (h.push acc) [] rest
    else readLoop h (acc ++ [l]) rest

/-- `History::read_from_file`, applied to the contents of the persisted
file. -/
def History.read_from_file (h : History) (contents : String) : History :=
  readLoop h [] (rustLines contents)

/-! ## The editor (`src/repl.rs`)

`Repl` keeps the data fields of the Rust struct that influence observable
behaviour (the terminal handle, the event stream and the `PhantomData` marker
are dropped).  The `lines` / `c` fields play the role of the local variables
of `Repl::next`, which are copied back into the struct at the top of every
loop iteration. -/

/-- The `Cursor` struct of `src/repl.rs`. -/
structure Cursor where
  use_history : Bool
  lineno : Nat
  charno : Nat
deriving DecidableEq, Repr

/-- `Cursor::default()`. -/
def Cursor.default : Cursor := { use_history := false, lineno := 0, charno := 0 }

/-- The `Repl` struct (data fields only). -/
structure Repl where
  history : History
  lines : List String
  c : Cursor
  attached : Option Nat
  moduleName : Option String
  /-- `module_len` — the *byte* length of the module name (`module.len()`). -/
  module_len : Nat
  leader : String
  leader_len : Nat
  continued_leader : String
  continued_leader_len : Nat
  clear_keyword : String
deriving DecidableEq, Repr

/-- `Repl::with_capacity` (and, field for field, `Repl::with_capacityd`).
Note `continued_leader_len` is initialized from `leader.chars().count()` in
the source — faithfully reproduced here. -/
def Repl.with_capacity (leader continued_leader : String) (capacity : Nat) : Repl :=
  { history := History.with_capacity capacity
  , lines := []
  , c := Cursor.default
  , attached := none
  , moduleName := none
  , module_len := 0
  , leader := leader
  , leader_len := leader.length
  , continued_leader := continued_leader
  , continued_leader_len := leader.length
  , clear_keyword := "clear" }

/-- `Repl::cur`: the active buffer — the current history entry while browsing
(`unwrap` is a panic when there is none; that unreachable case yields `[]`
here), otherwise the live buffer. -/
def Repl.cur (s : Repl) : List String :=
  if s.c.use_history then (s.history.cur).getD [] else s.lines

/-- `Repl::cur_str`: the line of the active buffer under the cursor. -/
def Repl.cur_str (s : Repl) : String := (s.cur).getD s.c.lineno ""

/-- The extra leader width for the first line: `digits(id) + 13` columns when
attached, `module_len + 3` when a module is set. -/
def Repl.leaderExtra (s : Repl) : Nat :=
  match s.attached with
  | some id => (toString id).length + 13
  | none =>
    match s.moduleName with
    | some _ => s.module_len + 3
    | none => 0

/-- `Repl::print_lines`: the state effect (the cursor column is clamped to the
current line of the printed buffer) together with the final terminal column
`leader_len + charno` the cursor is moved to. -/
def Repl.print_lines (s : Repl) (c : Cursor) (lines : List String) : Cursor × Nat :=
  let leaderLen := if c.lineno = 0 then s.leaderExtra + s.leader_len else s.continued_leader_len
  let c := { c with charno := min c.charno (lines.getD c.lineno "").length }
  (c, leaderLen + c.charno)

/-- `Repl::replace_with_history`: copy the browsed entry line-for-line into the
live buffer (`resize` + per-line `clear` / append make it an exact copy) and
reset the navigation index.  Every caller clears `use_history` immediately
after the call, so the flag is cleared here as well. -/
def Repl.replace_with_history (s : Repl) : Repl :=
  { s with lines := (s.history.cur).getD []
         , history := s.history.reset_iter
         , c := { s.c with use_history := false } }

/-- The `if c.use_history { self.replace_with_history(&mut lines); c.use_history = false; }`
prelude shared by every content-edit arm. -/
def Repl.materializeIf (s : Repl) : Repl :=
  if s.c.use_history then s.replace_with_history else s

/-- `Repl::reset_lines`. -/
def Repl.reset_lines (s : Repl) : Repl :=
  { s with lines := [], c := Cursor.default }

/-- The `history_up!` macro (plain variant). -/
def historyUp (s : Repl) : Repl :=
  let c0 := { s.c with use_history := true }
  match s.history.prevF with
  | (some sel, h1) =>
    let c1 := (Repl.print_lines s c0 sel).1
    let c2 := { c1 with lineno := sel.length - 1 }
    let sLen := (sel.getD c2.lineno "").length
    let c3 := if c2.charno = 0 ∨ sLen < c2.charno then { c2 with charno := sLen } else c2
    { s with history := h1, c := c3 }
  | (none, h1) =>
    match h1.cur with
    | some sel =>
      let sLen := (sel.getD c0.lineno "").length
      let c1 := if c0.charno = 0 ∨ sLen < c0.charno then { c0 with charno := sLen } else c0
      { s with history := h1, c := c1 }
    | none =>
      let c1 := { c0 with use_history := false }
      let sLen := (s.lines.getD c1.lineno "").length
      let c2 := if c1.charno = 0 ∨ sLen < c1.charno then { c1 with charno := sLen } else c1
      { s with history := h1, c := c2 }

/-- The `history_up!` macro (`retain` variant, used by PageUp): remember the
visual row, jump, and restore the row when the destination entry is tall
enough. -/
def historyUpRetain (s : Repl) : Repl :=
  let l0 := s.c.lineno
  let s1 := if 0 < l0 then { s with c := { s.c with lineno := 0 } } else s
  let s2 := historyUp s1
  if l0 < s2.c.lineno then { s2 with c := { s2.c with lineno := l0 } } else s2

/-- The `history_down!` macro (plain variant). -/
def historyDown (s : Repl) : Repl :=
  match s.history.nextF with
  | (res, h1) =>
    let selc : List String × Cursor :=
      match res with
      | some sel => (sel, s.c)
      | none => (s.lines, { s.c with use_history := false })
    let c1 := { selc.2 with lineno := 0 }
    let c2 := (Repl.print_lines s c1 selc.1).1
    let sLen := (selc.1.getD 0 "").length
    let c3 := if c2.charno = 0 ∨ sLen < c2.charno then { c2 with charno := sLen } else c2
    { s with history := h1, c := c3 }

/-- The `history_down!` macro (`retain` variant, used by PageDown). -/
def historyDownRetain (s : Repl) : Repl :=
  let l0 := s.c.lineno
  let s1 := historyDown s
  let l1 := min l0 ((Repl.cur s1).length - 1)
  if 0 < l1 then { s1 with c := { s1.c with lineno := l1 } } else s1

/-- The key events dispatched by the match in `Repl::next` (other events are
ignored and fall into `other`). -/
inductive Event where
  | ctrlC | ctrlD | esc | ctrlL
  | char (ch : Char) | tab
  | home | endKey | left | right
  | pageUp | up | pageDown | down
  | backspace | delete | enter
  | other
deriving DecidableEq, Repr

/-- Outcome of one iteration of the event loop of `Repl::next`: continue the
loop with an updated state, return a finalized command or sentinel with the
post-return state, or hit a Rust panic. -/
inductive StepResult where
  | cont (s : Repl)
  | done (s : Repl) (out : String)
  | panicked
deriving DecidableEq, Repr

/-- One iteration of the `Repl::next` event loop on key event `e`.  `g` is the
`LangInterface::get_indent` capability. -/
def step (g : List String → Nat) (s : Repl) (e : Event) : StepResult :=
  match e with
  | .ctrlC => .done s.reset_lines "exit"
  | .ctrlD => .done s.reset_lines "detach"
  | .esc => .done s.reset_lines "back"
  | .ctrlL =>
    let saved := s.c.lineno
    let sel := Repl.cur s
    let c1 := (Repl.print_lines s { s.c with lineno := 0 } sel).1
    let c2 := { c1 with lineno := saved }
    let c3 := { c2 with charno := min c2.charno ((sel.getD saved "").length) }
    .cont { s with c := c3 }
  | .char ch =>
    let s := s.materializeIf
    let line := s.lines.getD s.c.lineno ""
    match rustInsertChar line (get_byte_i line s.c.charno) ch with
    | some l2 =>
      .cont { s with lines := s.lines.set s.c.lineno l2
                   , c := { s.c with charno := s.c.charno + 1 } }
    | none => .panicked
  | .tab =>
    let s := s.materializeIf
    let line := s.lines.getD s.c.lineno ""
    match rustInsertStr line s.c.charno "    " with
    | some l2 =>
      .cont { s with lines := s.lines.set s.c.lineno l2
                   , c := { s.c with charno := s.c.charno + 4 } }
    | none => .panicked
  | .home => .cont { s with c := { s.c with charno := 0 } }
  | .endKey => .cont { s with c := { s.c with charno := s.cur_str.length } }
  | .left =>
    if 0 < s.c.charno then .cont { s with c := { s.c with charno := s.c.charno - 1 } }
    else .cont s
  | .right =>
    if s.c.charno < s.cur_str.length then
      .cont { s with c := { s.c with charno := s.c.charno + 1 } }
    else .cont s
  | .pageUp => .cont (historyUpRetain s)
  | .up =>
    if s.c.lineno = 0 then .cont (historyUp s)
    else
      let s1 := { s with c := { s.c with lineno := s.c.lineno - 1 } }
      .cont { s1 with c := { s1.c with charno := min s1.cur_str.length s1.c.charno } }
  | .pageDown => .cont (historyDownRetain s)
  | .down =>
    if s.c.use_history = true ∧ s.c.lineno + 1 = ((s.history.cur).getD []).length then
      .cont (historyDown s)
    else if s.c.use_history = false ∧ s.c.lineno + 1 = s.lines.length then .cont s
    else
      let s1 := { s with c := { s.c with lineno := s.c.lineno + 1 } }
      .cont { s1 with c := { s1.c with charno := min s1.cur_str.length s1.c.charno } }
  | .backspace =>
    if 0 < s.c.charno then
      let s := s.materializeIf
      let c1 := { s.c with charno := s.c.charno - 1 }
      let line := s.lines.getD c1.lineno ""
      match rustRemoveChar line (get_byte_i line c1.charno) with
      | some l2 => .cont { s with lines := s.lines.set c1.lineno l2, c := c1 }
      | none => .panicked
    else if 0 < s.c.lineno then
      let s := s.materializeIf
      let ln := s.c.lineno - 1
      let prev := s.lines.getD ln ""
      let c1 := { s.c with lineno := ln, charno := prev.length }
      let removed := s.lines.getD (ln + 1) ""
      let lines2 := (s.lines.eraseIdx (ln + 1)).set ln (prev ++ removed)
      let c2 := (Repl.print_lines s c1 lines2).1
      .cont { s with lines := lines2, c := c2 }
    else .cont s
  | .delete =>
    if s.c.charno < s.cur_str.length then
      let s := s.materializeIf
      let line := s.lines.getD s.c.lineno ""
      match rustRemoveChar line (get_byte_i line s.c.charno) with
      | some l2 => .cont { s with lines := s.lines.set s.c.lineno l2 }
      | none => .panicked
    else if s.c.lineno + 1 < (Repl.cur s).length then
      let s := s.materializeIf
      let curLine := s.lines.getD s.c.lineno ""
      let removed := s.lines.getD (s.c.lineno + 1) ""
      let lines2 := (s.lines.eraseIdx (s.c.lineno + 1)).set s.c.lineno (curLine ++ removed)
      let c2 := (Repl.print_lines s s.c lines2).1
      .cont { s with lines := lines2, c := c2 }
    else .cont s
  | .enter =>
    if s.attached.isSome then .done s.reset_lines "detach"
    else if trimIsEmpty ((Repl.cur s).getD 0 "") then
      .cont s
    else if s.c.use_history = false ∧ s.lines.length = 1 ∧ s.lines.getD 0 "" = s.clear_keyword then
      .cont { s with lines := s.lines.set 0 "", c := { s.c with charno := 0 } }
    else if s.c.use_history = true ∧ s.c.lineno + 1 = ((s.history.cur).getD []).length then
      let entry := (s.history.cur).getD []
      .done { s with lines := [], c := Cursor.default, history := s.history.push entry }
        (String.intercalate "\n" entry)
    else
      let k := g ((Repl.cur s).take (s.c.lineno + 1))
      if s.c.use_history = false ∧ s.c.lineno + 1 = s.lines.length ∧ k = 0 then
        .done { s with lines := [], c := Cursor.default, history := s.history.push s.lines }
          (String.intercalate "\n" s.lines)
      else
        let s := s.materializeIf
        let c1 := { s.c with lineno := s.c.lineno + 1, charno := k }
        let lines2 := listInsertIdx c1.lineno (spaces k) s.lines
        let c2 := (Repl.print_lines s c1 lines2).1
        .cont { s with lines := lines2, c := c2 }
  | .other => .cont s

/-- Entry to `Repl::next`: when the stored lines are empty, a fresh input cycle
begins with one empty line. -/
def startCycle (s : Repl) : Repl :=
  if s.lines.isEmpty then { s with lines := [""] } else s

/-- Drive one event: a finalized command starts the next input cycle; a panic
aborts the run. -/
def runEvent (g : List String → Nat) (s : Repl) (e : Event) : Option Repl :=
  match step g s e with
  | .cont s1 => some s1
  | .done s1 _ => some (startCycle s1)
  | .panicked => none

/-- Drive a whole event sequence. -/
def runEvents (g : List String → Nat) : Repl → List Event → Option Repl
  | s, [] => some s
  | s, e :: es =>
    match runEvent g s e with
    | some s1 => runEvents g s1 es
    | none => none

/-! ## Navigation invariant machinery (for C9) -/

/-- The navigation-index invariant stated by the spec:
`iter_i ∈ [-1, len-1]`. -/
def navInv (h : History) : Prop := -1 ≤ h.iterI ∧ h.iterI < h.hlen

instance navInvDecidable (h : History) : Decidable (navInv h) := by
  unfold navInv
  infer_instance

/-- The navigation contract of `cur` / `prev` / `next` on one store state. -/
def navSpec (h : History) : Prop :=
  ((h.prevF).1.isSome = true ↔ h.iterI + 1 < h.hlen) ∧
  (¬ h.iterI + 1 < h.hlen → h.prevF = (none, h)) ∧
  ((h.nextF).1.isSome = true ↔ (-1 < h.iterI ∧ h.iterI - 1 ≠ -1)) ∧
  (h.iterI = -1 ∨ h.buffer = [] → h.cur = none) ∧
  (0 ≤ h.iterI ∧ h.buffer ≠ [] → h.cur = h.buffer.get? h.iterI.toNat)

instance navSpecDecidable (h : History) : Decidable (navSpec h) := by
  unfold navSpec
  infer_instance

/-- The mutating operations of the `History` API. -/
inductive HistOp where
  | pushE (e : List String)
  | prevNav
  | nextNav
  | resetNav
  | clearNav
deriving DecidableEq, Repr

/-- Apply one `History` operation (the state effect of `push` / `prev` /
`next` / `reset_iter` / `clear`). -/
def applyOp (h : History) : HistOp → History
  | .pushE e => h.push e
  | .prevNav => (h.prevF).2
  | .nextNav => (h.nextF).2
  | .resetNav => h.reset_iter
  | .clearNav => h.clearAll

theorem navInv_applyOp (h : History) (op : HistOp) (hinv : navInv h) :
    navInv (applyOp h op) := by
  obtain ⟨h1, h2⟩ := hinv
  simp only [navInv, History.hlen] at h1 h2 ⊢
  cases op with
  | pushE e =>
    simp only [applyOp, History.push, List.length_cons]
    refine ⟨le_refl _, ?_⟩
    have : 0 ≤ ((if h.at_capacity then h.buffer.dropLast else h.buffer).length : Int) := by
      positivity
    push_cast
    omega
  | prevNav =>
    simp only [applyOp, History.prevF, History.hlen]
    split
    · rename_i hlt
      dsimp only
      exact ⟨by omega, hlt⟩
    · exact ⟨h1, h2⟩
  | nextNav =>
    simp only [applyOp, History.nextF]
    split
    · rename_i hle
      dsimp only
      exact ⟨hle, by omega⟩
    · exact ⟨h1, h2⟩
  | resetNav =>
    simp only [applyOp, History.reset_iter]
    refine ⟨le_refl _, by omega⟩
  | clearNav =>
    simp only [applyOp, History.clearAll, List.length_nil]
    refine ⟨le_refl _, by norm_num⟩

theorem navInv_foldl (h : History) (ops : List HistOp) (hinv : navInv h) :
    navInv (ops.foldl applyOp h) := by
  induction ops generalizing h with
  | nil => exact hinv
  | cons op ops ih => exact ih _ (navInv_applyOp h op hinv)

theorem navSpec_of_inv (h : History) (hinv : navInv h) : navSpec h := by
  obtain ⟨h1, h2⟩ := hinv
  simp only [navInv, History.hlen] at h1 h2
  simp only [navSpec, History.prevF, History.nextF, History.cur, History.atIdx, History.hlen]
  refine ⟨?_, ?_, ?_, ?_, ?_⟩
  · constructor
    · intro hs
      by_contra hn
      rw [if_neg hn] at hs
      simp at hs
    · intro hlt
      rw [if_pos hlt, if_pos (by omega)]
      have ht : (h.iterI + 1).toNat < h.buffer.length := by omega
      simp [List.getElem?_eq_getElem ht]
  · intro hn
    rw [if_neg hn]
  · constructor
    · intro hs
      by_cases hge : (-1 : Int) ≤ h.iterI - 1
      · rw [if_pos hge] at hs
        by_cases hge0 : (0 : Int) ≤ h.iterI - 1
        · constructor <;> omega
        · rw [if_neg hge0] at hs
          simp at hs
      · rw [if_neg hge] at hs
        simp at hs
    · rintro ⟨ha, hb⟩
      rw [if_pos (by omega), if_pos (by omega)]
      have ht : h.iterI.toNat - 1 < h.buffer.length := by omega
      simp [List.getElem?_eq_getElem ht]
  · rintro (hi | hb)
    · rw [hi]
      split
      · rw [if_neg (by omega)]
      · rfl
    · rw [if_neg (by simp [hb])]
  · rintro ⟨hi, hb⟩
    rw [if_pos (by omega), if_pos hi]

/-! ## Claim C9 — history navigation contract -/

/-- Claim C9: for every history store state (satisfying the navigation
invariant), `prev()` returns an entry if and only if `index + 1 < len` and
leaves the state unchanged when it fails; `next()` returns an entry if and
only if `index > -1` and the decremented index is not `-1`; `cur()` returns
the entry at the navigation index, or nothing if the index is `-1` or the
store is empty; and the navigation index stays in `[-1, len-1]` under every
sequence of store operations starting from `with_capacity`. -/
theorem history_navigation_contract (h : History) (hinv : navInv h)
    (C : Nat) (ops : List HistOp) :
    navSpec h ∧ navInv (ops.foldl applyOp (History.with_capacity C)) := by
  refine ⟨navSpec_of_inv h hinv, navInv_foldl _ ops ?_⟩
  refine ⟨le_refl _, ?_⟩
  simp [History.with_capacity, History.hlen]

/-- Witness for C9 at a concrete store with two entries, browsing at index 0,
and a concrete operation sequence. -/
theorem history_navigation_contract_witness :
    navInv ⟨[["x"], ["y"]], 0, 3⟩ ∧
      (navSpec ⟨[["x"], ["y"]], 0, 3⟩ ∧
        navInv ([HistOp.pushE ["a"], HistOp.prevNav, HistOp.prevNav,
          HistOp.nextNav].foldl applyOp (History.with_capacity 2))) :=
  ⟨by decide, history_navigation_contract ⟨[["x"], ["y"]], 0, 3⟩ (by decide) 2 _⟩

/-! ## Claim C1 — history capacity -/

/-- Claim C1 (refuted, code bug): `History::with_capacity(2)` does *not* keep
the store within 2 entries.  `VecDeque::with_capacity(capacity + 1)` combined
with `at_capacity ⇔ len == capacity()` lets the store hold 3 entries: after
pushing `["a"]`, `["b"]`, `["c"]` all three are present and nothing has been
evicted; eviction of the oldest entry first happens on the fourth push. -/
theorem history_capacity_overflow :
    ((((History.with_capacity 2).push ["a"]).push ["b"]).push ["c"]).buffer
        = [["c"], ["b"], ["a"]] ∧
      2 < ((((History.with_capacity 2).push ["a"]).push ["b"]).push ["c"]).buffer.length ∧
      (((((History.with_capacity 2).push ["a"]).push ["b"]).push ["c"]).push ["d"]).buffer
        = [["d"], ["c"], ["b"]] := by
  decide

/-! ## Claim C2 — Tab is not byte-safe -/

/-- Claim C2 (refuted, code bug): the Tab arm calls
`lines[c.lineno].insert_str(c.charno, "    ")`, passing the *character* index
directly as a *byte* offset, unlike the Char/Backspace/Delete arms which
translate it with `get_byte_i`.  On the line `"é"` with `char_index = 1`
(cursor after the 2-byte scalar), byte offset 1 is not a character boundary
and `insert_str` panics; the correct translation would have been byte
offset 2. -/
theorem tab_insert_panics_on_multibyte :
    step (fun _ => 0)
        { Repl.with_capacity "> " ". " 64 with lines := ["é"], c := ⟨false, 0, 1⟩ }
        Event.tab = StepResult.panicked ∧
      rustInsertStr "é" 1 "    " = none ∧
      get_byte_i "é" 1 = 2 := by
  decide

/-! ## Claim C3 — continuation leader width -/

/-- Claim C3 (refuted, code bug): both constructors initialize
`continued_leader_len` from `leader.chars().count()` instead of
`continued_leader.chars().count()`, so repainting a continuation line
(`line_index > 0`) repositions the terminal cursor to
`primary_leader_width + char_index`.  With leader `"> "` (2 chars) and
continuation leader `"."` (1 char), the column for `(lineno, charno) = (1, 0)`
is 2, not 1. -/
theorem continuation_leader_width_bug :
    (Repl.print_lines (Repl.with_capacity "> " "." 64) ⟨false, 1, 0⟩ ["ab", "cd"]).2 = 2 ∧
      (Repl.with_capacity "> " "." 64).continued_leader_len = 2 ∧
      (Repl.with_capacity "> " "." 64).continued_leader.length = 1 := by
  decide

/-! ## Claim C5 — cursor bounds invariant

The invariant `char_index ≤ char_count(active_line)` fails after a supported
key-event sequence: the `retain` variant of `history_up!` (PageUp) clamps
`charno` against the *last* line of the destination entry and then restores
the remembered row, whose line may be shorter. -/

/-- An indent capability driving the C5 scenario: the session first composes
and submits the three-line command `["aaaa", " ", "   c"]`, then starts
`["xx", "  "]` and presses PageUp. -/
def gIndentC5 : List String → Nat
  | ["aaaa"] => 1
  | ["aaaa", " "] => 3
  | ["xx"] => 2
  | _ => 0

/-- Key-event sequence from a fresh REPL: type `aaaa`, Enter (indent 1),
Enter (indent 3), type `c`, Enter (indent 0 — submit), type `xx`, Enter
(indent 2), PageUp. -/
def eventsC5 : List Event :=
  [Event.char 'a', Event.char 'a', Event.char 'a', Event.char 'a', Event.enter,
   Event.enter, Event.char 'c', Event.enter, Event.char 'x', Event.char 'x',
   Event.enter, Event.pageUp]

/-- The fresh REPL the C5 scenario starts from. -/
def replC5 : Repl := startCycle (Repl.with_capacity "> " ". " 4)

/-- Claim C5 (refuted, code bug): after the PageUp ending `eventsC5`, the
session is browsing the entry `["aaaa", " ", "   c"]` at `line_index = 1`
with `char_index = 2`, but the active line `" "` has only 1 character —
`char_index ≤ char_count(active_line)` is violated. -/
theorem cursor_invariant_violated_by_pageup :
    (runEvents gIndentC5 replC5 eventsC5).map
        (fun s => (s.c.use_history, s.c.lineno, s.c.charno, s.cur_str, s.cur_str.length))
      = some (true, 1, 2, " ", 1) ∧
      (runEvents gIndentC5 replC5 eventsC5).map
        (fun s => decide (s.c.charno ≤ s.cur_str.length)) = some false := by
  decide

/-! ## Claim C4 — persistence round-trip -/

/-- A line that survives the persistence format: it contains no newline, does
not end in a carriage return (both would be re-split by `str::lines`), and
does not start with `---` (the documented block-terminator collision). -/
def cleanLine (l : String) : Prop :=
  '\n' ∉ l.data ∧ l.data.getLast? ≠ some '\r' ∧ rStartsWith l "---" = false

instance cleanLineDecidable (l : String) : Decidable (cleanLine l) := by
  unfold cleanLine
  infer_instance

theorem linesAux_append (pre rest acc : List Char) (hpre : '\n' ∉ pre) :
    linesAux acc (pre ++ '\n' :: rest)
      = String.mk (stripCrList (acc.reverse ++ pre)) :: linesAux [] rest := by
  induction pre generalizing acc with
  | nil => simp [linesAux]
  | cons c cs ih =>
    have hc : ¬ c = '\n' := by
      intro hcEq
      exact hpre (by simp [hcEq])
    have hcs : '\n' ∉ cs := by
      intro hmem
      exact hpre (List.mem_cons_of_mem _ hmem)
    simp only [List.cons_append, linesAux, if_neg hc, List.append_eq]
    rw [ih _ hcs]
    simp [List.append_assoc]

theorem linesAux_line (l : String) (rest : List Char)
    (h1 : '\n' ∉ l.data) (h2 : l.data.getLast? ≠ some '\r') :
    linesAux [] (l.data ++ '\n' :: rest) = l :: linesAux [] rest := by
  rw [linesAux_append l.data rest [] h1]
  simp [stripCrList, h2]

theorem entryChars_nil : entryChars [] = ['-', '-', '-', '\n'] := rfl

theorem entryChars_cons (l : String) (ls : List String) :
    entryChars (l :: ls) = l.data ++ '\n' :: entryChars ls := by
  simp [entryChars, List.append_assoc]

theorem linesAux_entry (ls : List String) (rest : List Char)
    (h : ∀ l ∈ ls, cleanLine l) :
    linesAux [] (entryChars ls ++ rest) = ls ++ ("---" :: linesAux [] rest) := by
  induction ls with
  | nil =>
    rw [entryChars_nil]
    have hline := linesAux_line "---" rest (by decide) (by decide)
    simpa using hline
  | cons l ls ih =>
    rw [entryChars_cons, List.append_assoc, List.cons_append]
    obtain ⟨hn, hr, _⟩ := h l (by simp)
    rw [linesAux_line l _ hn hr, ih (fun x hx => h x (by simp [hx]))]
    simp

theorem readLoop_block (e : List String) (h : History) (acc rest : List String)
    (he : ∀ l ∈ e, rStartsWith l "---" = false) :
    readLoop h acc (e ++ "---" :: rest) = readLoop (h.push (acc ++ e)) [] rest := by
  induction e generalizing acc with
  | nil =>
    simp only [List.nil_append, List.append_nil, readLoop]
    rw [if_pos (by decide)]
  | cons l e ih =>
    have hl : rStartsWith l "---" = false := he l (by simp)
    simp only [List.cons_append, readLoop, hl, List.append_eq]
    rw [if_neg (by simp)]
    rw [ih _ (fun x hx => he x (by simp [hx]))]
    simp

theorem readLoop_blocks (es : List (List String)) (h : History)
    (he : ∀ e ∈ es, ∀ l ∈ e, rStartsWith l "---" = false) :
    readLoop h [] (es.foldr (fun e acc => e ++ "---" :: acc) [])
      = es.foldl (fun a e => a.push e) h := by
  induction es generalizing h with
  | nil => simp [readLoop]
  | cons e es ih =>
    simp only [List.foldr_cons, List.foldl_cons]
    rw [readLoop_block e h [] _ (fun l hl => he e (by simp) l hl)]
    simp only [List.nil_append]
    exact ih (h.push e) (fun e2 h2 l hl => he e2 (by simp [h2]) l hl)

theorem rustLines_writeChars (es : List (List String))
    (h : ∀ e ∈ es, ∀ l ∈ e, cleanLine l) :
    linesAux [] ((es.map entryChars).flatten)
      = es.foldr (fun e acc => e ++ "---" :: acc) [] := by
  induction es with
  | nil => simp [linesAux]
  | cons e es ih =>
    simp only [List.map_cons, List.flatten_cons, List.foldr_cons]
    rw [linesAux_entry e _ (fun l hl => h e (by simp) l hl)]
    rw [ih (fun e2 h2 l hl => h e2 (by simp [h2]) l hl)]

theorem push_buffer_of_lt (h : History) (e : List String)
    (hlt : h.buffer.length < h.cap) : (h.push e).buffer = e :: h.buffer := by
  have hne : ¬ h.buffer.length = h.cap := Nat.ne_of_lt hlt
  simp [History.push, History.at_capacity, hne]

theorem foldl_push_buffer (es : List (List String)) (h : History)
    (hle : h.buffer.length + es.length ≤ h.cap) :
    (es.foldl (fun a e => a.push e) h).buffer = es.reverse ++ h.buffer := by
  induction es generalizing h with
  | nil => simp
  | cons e es ih =>
    have hlt : h.buffer.length < h.cap := by
      simp only [List.length_cons] at hle
      omega
    have hb := push_buffer_of_lt h e hlt
    have hcap : (h.push e).cap = h.cap := rfl
    have hside : (h.push e).buffer.length + es.length ≤ (h.push e).cap := by
      rw [hb, hcap]
      simp only [List.length_cons] at hle ⊢
      omega
    simp only [List.foldl_cons]
    rw [ih (h.push e) hside, hb]
    simp

/-- Claim C4 (amended): writing a history store to its file and reloading the
file into a fresh store of the same capacity reproduces the entries exactly —
provided no stored line begins with `---` (the claim's own hypothesis) *and*
no stored line contains an embedded newline or ends with a carriage return
(`str::lines` would re-split such lines, see the counterexample). -/
theorem history_persistence_roundtrip (C : Nat) (h : History)
    (hlen : h.buffer.length ≤ C + 1)
    (hclean : ∀ e ∈ h.buffer, ∀ l ∈ e, cleanLine l) :
    ((History.with_capacity C).read_from_file h.write_to_file).buffer = h.buffer := by
  unfold History.read_from_file History.write_to_file History.writeChars
  have hr : rustLines (String.mk (((h.buffer.reverse).map entryChars).flatten))
      = linesAux [] (((h.buffer.reverse).map entryChars).flatten) := rfl
  rw [hr, rustLines_writeChars _ (fun e he l hl => hclean e (List.mem_reverse.mp he) l hl)]
  rw [readLoop_blocks _ _ (fun e he l hl => (hclean e (List.mem_reverse.mp he) l hl).2.2)]
  rw [foldl_push_buffer _ _ (by simp [History.with_capacity]; omega)]
  simp [History.with_capacity]

/-- Witness for C4 at a concrete two-entry store of capacity 2. -/
theorem history_persistence_roundtrip_witness :
    (⟨[["b"], ["a", "aa"]], -1, 3⟩ : History).buffer.length ≤ 2 + 1 ∧
      cleanLine "b" ∧ cleanLine "a" ∧ cleanLine "aa" ∧
      ((History.with_capacity 2).read_from_file
          (History.write_to_file ⟨[["b"], ["a", "aa"]], -1, 3⟩)).buffer
        = (⟨[["b"], ["a", "aa"]], -1, 3⟩ : History).buffer :=
  ⟨by decide, by decide, by decide, by decide,
    history_persistence_roundtrip 2 ⟨[["b"], ["a", "aa"]], -1, 3⟩ (by decide) (by decide)⟩

/-- Counterexample for C4 as frozen: the entry `["a\nb"]` contains no line
beginning with `---`, yet the round trip yields `[["a", "b"]]` — the embedded
newline is re-split by `str::lines` on reload. -/
theorem history_roundtrip_newline_counterexample :
    rStartsWith "a\nb" "---" = false ∧
      ((History.with_capacity 1).read_from_file
          (History.write_to_file ⟨[["a\nb"]], -1, 2⟩)).buffer = [["a", "b"]] ∧
      ([["a", "b"]] : List (List String)) ≠ [["a\nb"]] := by
  decide

/-! ## Claims C6 / C7 — the Enter state machine -/

theorem listInsertIdx_getD {α : Type} :
    ∀ (n : Nat) (a d : α) (l : List α), n ≤ l.length → (listInsertIdx n a l).getD n d = a
  | 0, _, _, _, _ => rfl
  | n + 1, a, d, [], h => absurd h (by simp)
  | n + 1, a, d, x :: l, h => by
    simp only [listInsertIdx, List.getD_cons_succ]
    exact listInsertIdx_getD n a d l (by simpa using h)

theorem spaces_length (k : Nat) : (spaces k).length = k := by
  simp [spaces, String.length]

/-- A shared indent capability constant to 0 (used by concrete scenarios). -/
def gZero : List String → Nat := fun _ => 0

/-- A shared indent capability constant to 4 (used by concrete scenarios). -/
def gFour : List String → Nat := fun _ => 4

/-- Claim C6 (amended): Enter finalizes and returns the live buffer joined by
newlines when — in addition to the frozen claim's hypotheses (not browsing,
cursor on the last line, indent 0) — no attachment is set, the first line is
not blank after trimming, and the single-line buffer is not the clear keyword
(the earlier transition rules of the Enter state machine). -/
theorem enter_finalizes_live_buffer (g : List String → Nat) (s : Repl)
    (hatt : s.attached = none)
    (hbrowse : s.c.use_history = false)
    (htrim : trimIsEmpty (s.lines.getD 0 "") = false)
    (hclear : ¬ (s.lines.length = 1 ∧ s.lines.getD 0 "" = s.clear_keyword))
    (hlast : s.c.lineno + 1 = s.lines.length)
    (hind : g (s.lines.take (s.c.lineno + 1)) = 0) :
    step g s Event.enter
      = StepResult.done
          { s with lines := [], c := Cursor.default, history := s.history.push s.lines }
          (String.intercalate "\n" s.lines) := by
  have hcur : Repl.cur s = s.lines := by simp [Repl.cur, hbrowse]
  simp only [step]
  rw [if_neg (by simp [hatt])]
  rw [if_neg (by simp only [hcur]; simpa using htrim)]
  rw [if_neg (fun hcon => hclear ⟨hcon.2.1, hcon.2.2⟩)]
  rw [if_neg (by simp [hbrowse])]
  rw [if_pos ⟨hbrowse, hlast, by rw [hcur]; exact hind⟩]

/-- The state `["clear"]`, cursor at the end of the only line, default clear
keyword. -/
def sClearKw : Repl :=
  { Repl.with_capacity "> " ". " 64 with lines := ["clear"], c := ⟨false, 0, 5⟩ }

/-- Counterexample for C6 as frozen: pressing Enter on the single live line
`"clear"` (not browsing, cursor on the last line, indent capability returning
0) does *not* finalize — the clear-keyword rule fires first and the loop
continues with a cleared buffer. -/
theorem enter_clear_keyword_no_finalize :
    sClearKw.c.use_history = false ∧
      sClearKw.c.lineno + 1 = sClearKw.lines.length ∧
      gZero (sClearKw.lines.take (sClearKw.c.lineno + 1)) = 0 ∧
      step gZero sClearKw Event.enter
        = StepResult.cont { sClearKw with lines := [""], c := ⟨false, 0, 0⟩ } := by
  decide

/-- The state `["let a = 1"]`, cursor at the end of the only line. -/
def sLetLine : Repl :=
  { Repl.with_capacity "> " ". " 64 with lines := ["let a = 1"], c := ⟨false, 0, 9⟩ }

/-- Witness for C6 at the spec's scenario `["let a = 1"]` with indent 0. -/
theorem enter_finalizes_live_buffer_witness :
    sLetLine.attached = none ∧ sLetLine.c.use_history = false ∧
      trimIsEmpty (sLetLine.lines.getD 0 "") = false ∧
      ¬ (sLetLine.lines.length = 1 ∧ sLetLine.lines.getD 0 "" = sLetLine.clear_keyword) ∧
      sLetLine.c.lineno + 1 = sLetLine.lines.length ∧
      gZero (sLetLine.lines.take (sLetLine.c.lineno + 1)) = 0 ∧
      step gZero sLetLine Event.enter
        = StepResult.done
            { sLetLine with
                lines := []
              , c := Cursor.default
              , history := sLetLine.history.push ["let a = 1"] }
            "let a = 1" :=
  ⟨rfl, rfl, by decide, by decide, by decide, rfl, by
    have h := enter_finalizes_live_buffer gZero sLetLine rfl rfl (by decide) (by decide)
      (by decide) rfl
    exact h.trans (by decide)⟩

/-- Claim C7 (amended): Enter inserts a continuation line of exactly `k`
spaces after the current line, advances `line_index`, sets `char_index = k`,
clears browsing, and submits nothing — when additionally no attachment is set
and the clear-keyword rule does not fire (hypotheses the frozen claim
omits). -/
theorem enter_inserts_indented_continuation (g : List String → Nat) (s : Repl)
    (hatt : s.attached = none)
    (_hcons : s.c.use_history = true → s.history.cur ≠ none)
    (htrim : trimIsEmpty ((Repl.cur s).getD 0 "") = false)
    (hclear : s.c.use_history = true
      ∨ ¬ (s.lines.length = 1 ∧ s.lines.getD 0 "" = s.clear_keyword))
    (hfin1 : ¬ (s.c.use_history = true ∧ s.c.lineno + 1 = (Repl.cur s).length))
    (hfin2 : ¬ (s.c.use_history = false ∧ s.c.lineno + 1 = s.lines.length
      ∧ g ((Repl.cur s).take (s.c.lineno + 1)) = 0))
    (hlineno : s.c.lineno < (Repl.cur s).length) :
    step g s Event.enter
      = StepResult.cont
          { s with
              lines := listInsertIdx (s.c.lineno + 1)
                (spaces (g ((Repl.cur s).take (s.c.lineno + 1)))) (Repl.cur s)
            , history := if s.c.use_history = true then s.history.reset_iter else s.history
            , c := { use_history := false, lineno := s.c.lineno + 1
                   , charno := g ((Repl.cur s).take (s.c.lineno + 1)) } } ∧
      (if s.c.use_history = true then s.history.reset_iter else s.history).buffer
        = s.history.buffer := by
  have hins : ∀ k : Nat,
      ((listInsertIdx (s.c.lineno + 1) (spaces k) (Repl.cur s)).getD (s.c.lineno + 1) "").length
        = k := by
    intro k
    rw [listInsertIdx_getD (s.c.lineno + 1) (spaces k) "" (Repl.cur s) (by omega)]
    exact spaces_length k
  constructor
  · simp only [step]
    rw [if_neg (by simp [hatt])]
    rw [if_neg (by simpa using htrim)]
    rw [if_neg (fun hcon => by
      rcases hclear with hb | hcl
      · rw [hcon.1] at hb
        simp at hb
      · exact hcl ⟨hcon.2.1, hcon.2.2⟩)]
    rw [if_neg (fun hcon => hfin1 ⟨hcon.1, by
      have : Repl.cur s = (s.history.cur).getD [] := by simp [Repl.cur, hcon.1]
      rw [this]
      exact hcon.2⟩)]
    rw [if_neg hfin2]
    by_cases hb : s.c.use_history = true
    · have hcur : Repl.cur s = (s.history.cur).getD [] := by simp [Repl.cur, hb]
      simp only [Repl.materializeIf, hb, if_true, Repl.replace_with_history, Repl.print_lines]
      rw [← hcur]
      have hk := hins (g ((Repl.cur s).take (s.c.lineno + 1)))
      simp only [List.getD_eq_getElem?_getD] at hk
      simp [hk]
    · have hb2 : s.c.use_history = false := by
        cases hhist : s.c.use_history
        · rfl
        · exact absurd hhist hb
      have hcur : Repl.cur s = s.lines := by simp [Repl.cur, hb2]
      simp only [Repl.materializeIf, hb2, Bool.false_eq_true, if_false, Repl.print_lines]
      rw [← hcur]
      have hk := hins (g ((Repl.cur s).take (s.c.lineno + 1)))
      simp only [List.getD_eq_getElem?_getD] at hk
      simp [hk]
  · by_cases hb : s.c.use_history = true
    · rw [if_pos hb]
      rfl
    · rw [if_neg hb]

/-- Counterexample for C7 as frozen: on the single live line `"clear"` with an
indent capability returning 4 (first line nonempty after trimming, no
finalize condition holds), Enter does *not* insert a 4-space line — the
clear-keyword rule fires first: the buffer resets to `[""]` and the cursor
stays at `(0, 0)`. -/
theorem enter_clear_keyword_no_insert :
    trimIsEmpty (sClearKw.lines.getD 0 "") = false ∧
      gFour (sClearKw.lines.take (sClearKw.c.lineno + 1)) = 4 ∧
      step gFour sClearKw Event.enter
        = StepResult.cont { sClearKw with lines := [""], c := ⟨false, 0, 0⟩ } := by
  decide

/-- The state of the spec scenario `["if true {", ""]`, cursor at the end of
line 0. -/
def sIfBlock : Repl :=
  { Repl.with_capacity "> " ". " 64 with lines := ["if true \x7b", ""], c := ⟨false, 0, 9⟩ }

/-- Witness for C7 at the spec's scenario `["if true {", ""]` with indent 4:
the new line is `"    "` and the cursor becomes `(1, 4)`. -/
theorem enter_inserts_indented_continuation_witness :
    sIfBlock.attached = none ∧ sIfBlock.c.use_history = false ∧
      trimIsEmpty ((Repl.cur sIfBlock).getD 0 "") = false ∧
      ¬ (sIfBlock.lines.length = 1 ∧ sIfBlock.lines.getD 0 "" = sIfBlock.clear_keyword) ∧
      ¬ (sIfBlock.c.use_history = true ∧ sIfBlock.c.lineno + 1 = (Repl.cur sIfBlock).length) ∧
      ¬ (sIfBlock.c.use_history = false ∧ sIfBlock.c.lineno + 1 = sIfBlock.lines.length
        ∧ gFour ((Repl.cur sIfBlock).take (sIfBlock.c.lineno + 1)) = 0) ∧
      step gFour sIfBlock Event.enter
        = StepResult.cont
            { sIfBlock with lines := ["if true \x7b", "    ", ""], c := ⟨false, 1, 4⟩ } :=
  ⟨rfl, rfl, by decide, by decide, by decide, by decide, by
    have h := enter_inserts_indented_continuation gFour sIfBlock rfl
      (fun hcon => by simp [sIfBlock] at hcon) (by decide) (Or.inr (by decide))
      (by decide) (by decide) (by decide)
    exact h.1.trans (by decide)⟩

/-! ## Claim C8 — editing while browsing -/

/-- The guard under which a content-edit event actually performs an edit (the
Backspace / Delete fall-through arms edit nothing and leave the state
untouched). -/
def editApplies (s : Repl) : Event → Prop
  | .char _ => True
  | .tab => True
  | .backspace => 0 < s.c.charno ∨ 0 < s.c.lineno
  | .delete => s.c.charno < s.cur_str.length ∨ s.c.lineno + 1 < (Repl.cur s).length
  | _ => False

/-- The history buffer after a step; a panic aborts with the fallback state's
buffer (a panic mutates nothing further). -/
def resultHistBuffer (r : StepResult) (fallback : Repl) : List (List String) :=
  match r with
  | .cont s1 => s1.history.buffer
  | .done s1 _ => s1.history.buffer
  | .panicked => fallback.history.buffer

/-- Claim C8: a content edit (character insert, tab, backspace, delete) while
browsing behaves exactly as the same edit after `replace_with_history` — the
browsed entry is first copied line-for-line into the live buffer and the
browsing flag cleared — and the stored history entries are unchanged
afterwards. -/
theorem browsing_edit_copies_then_edits (g : List String → Nat) (s : Repl)
    (e : Event) (entry : List String)
    (hb : s.c.use_history = true) (hcur : s.history.cur = some entry)
    (happ : editApplies s e) :
    step g s e = step g s.replace_with_history e ∧
      s.replace_with_history.lines = entry ∧
      s.replace_with_history.c.use_history = false ∧
      s.replace_with_history.history.buffer = s.history.buffer ∧
      resultHistBuffer (step g s e) s = s.history.buffer := by
  have hm : s.materializeIf = s.replace_with_history := by
    simp [Repl.materializeIf, hb]
  have hm2 : s.replace_with_history.materializeIf = s.replace_with_history := by
    simp [Repl.materializeIf, Repl.replace_with_history]
  have hlines : s.replace_with_history.lines = entry := by
    simp [Repl.replace_with_history, hcur]
  have hc1 : s.replace_with_history.c.charno = s.c.charno := rfl
  have hc2 : s.replace_with_history.c.lineno = s.c.lineno := rfl
  have hg1 : s.replace_with_history.cur_str = s.cur_str := by
    simp [Repl.cur_str, Repl.cur, Repl.replace_with_history, hb, hcur]
  have hg2 : Repl.cur s.replace_with_history = Repl.cur s := by
    simp [Repl.cur, Repl.replace_with_history, hb, hcur]
  have hstep : step g s e = step g s.replace_with_history e := by
    cases e with
    | char ch => simp only [step, hm, hm2]
    | tab => simp only [step, hm, hm2]
    | backspace =>
      simp only [step, hm, hm2, hc1, hc2]
      by_cases h1 : 0 < s.c.charno
      · simp [h1]
      · by_cases h2 : 0 < s.c.lineno
        · simp [h1, h2]
        · rcases happ with h | h
          · exact absurd h h1
          · exact absurd h h2
    | delete =>
      simp only [step, hm, hm2, hc1, hc2, hg1, hg2]
      by_cases h1 : s.c.charno < s.cur_str.length
      · simp [h1]
      · by_cases h2 : s.c.lineno + 1 < (Repl.cur s).length
        · simp [h1, h2]
        · rcases happ with h | h
          · exact absurd h h1
          · exact absurd h h2
    | ctrlC => exact absurd happ (by simp [editApplies])
    | ctrlD => exact absurd happ (by simp [editApplies])
    | esc => exact absurd happ (by simp [editApplies])
    | ctrlL => exact absurd happ (by simp [editApplies])
    | home => exact absurd happ (by simp [editApplies])
    | endKey => exact absurd happ (by simp [editApplies])
    | left => exact absurd happ (by simp [editApplies])
    | right => exact absurd happ (by simp [editApplies])
    | pageUp => exact absurd happ (by simp [editApplies])
    | up => exact absurd happ (by simp [editApplies])
    | pageDown => exact absurd happ (by simp [editApplies])
    | down => exact absurd happ (by simp [editApplies])
    | enter => exact absurd happ (by simp [editApplies])
    | other => exact absurd happ (by simp [editApplies])
  have hhist : resultHistBuffer (step g s.replace_with_history e) s = s.history.buffer := by
    cases e with
    | char ch =>
      simp only [step, hm2]
      split <;> simp [resultHistBuffer, Repl.replace_with_history, History.reset_iter]
    | tab =>
      simp only [step, hm2]
      split <;> simp [resultHistBuffer, Repl.replace_with_history, History.reset_iter]
    | backspace =>
      simp only [step, hm2]
      split
      · split <;> simp [resultHistBuffer, Repl.replace_with_history, History.reset_iter]
      · split <;> simp [resultHistBuffer, Repl.replace_with_history, History.reset_iter]
    | delete =>
      simp only [step, hm2]
      split
      · split <;> simp [resultHistBuffer, Repl.replace_with_history, History.reset_iter]
      · split <;> simp [resultHistBuffer, Repl.replace_with_history, History.reset_iter]
    | ctrlC => exact absurd happ (by simp [editApplies])
    | ctrlD => exact absurd happ (by simp [editApplies])
    | esc => exact absurd happ (by simp [editApplies])
    | ctrlL => exact absurd happ (by simp [editApplies])
    | home => exact absurd happ (by simp [editApplies])
    | endKey => exact absurd happ (by simp [editApplies])
    | left => exact absurd happ (by simp [editApplies])
    | right => exact absurd happ (by simp [editApplies])
    | pageUp => exact absurd happ (by simp [editApplies])
    | up => exact absurd happ (by simp [editApplies])
    | pageDown => exact absurd happ (by simp [editApplies])
    | down => exact absurd happ (by simp [editApplies])
    | enter => exact absurd happ (by simp [editApplies])
    | other => exact absurd happ (by simp [editApplies])
  exact ⟨hstep, hlines, rfl, rfl, by rw [hstep]; exact hhist⟩

/-- A concrete browsing state: entry `["ab"]` browsed at index 0, live buffer
`["q"]` shelved, cursor at `(0, 1)`. -/
def sBrowseEdit : Repl :=
  { Repl.with_capacity "> " ". " 4 with
      history := ⟨[["ab"]], 0, 5⟩, lines := ["q"], c := ⟨true, 0, 1⟩ }

/-- Witness for C8: inserting `'z'` while browsing `["ab"]`. -/
theorem browsing_edit_copies_then_edits_witness :
    sBrowseEdit.c.use_history = true ∧
      sBrowseEdit.history.cur = some ["ab"] ∧
      editApplies sBrowseEdit (Event.char 'z') ∧
      (step gZero sBrowseEdit (Event.char 'z')
          = step gZero sBrowseEdit.replace_with_history (Event.char 'z') ∧
        sBrowseEdit.replace_with_history.lines = ["ab"] ∧
        sBrowseEdit.replace_with_history.c.use_history = false ∧
        sBrowseEdit.replace_with_history.history.buffer = sBrowseEdit.history.buffer ∧
        resultHistBuffer (step gZero sBrowseEdit (Event.char 'z')) sBrowseEdit
          = sBrowseEdit.history.buffer) :=
  ⟨rfl, by decide, trivial,
    browsing_edit_copies_then_edits gZero sBrowseEdit (Event.char 'z') ["ab"] rfl
      (by decide) trivial⟩

/-! ## Claim C10 — finalizing a browsed entry pushes a clone -/

/-- Claim C10: Enter on the last line of a browsed entry (first line not
blank, store below its allocated capacity) finalizes with the entry joined by
newlines and pushes a clone of the entry as the newest history entry, so the
buffer grows by one and the original entry remains (now at index 1). -/
theorem browsing_finalize_pushes_clone (g : List String → Nat) (s : Repl)
    (entry : List String)
    (hatt : s.attached = none)
    (hb : s.c.use_history = true)
    (hcur : s.history.cur = some entry)
    (htrim : trimIsEmpty (entry.getD 0 "") = false)
    (hlast : s.c.lineno + 1 = entry.length)
    (hcap : s.history.buffer.length < s.history.cap) :
    step g s Event.enter
      = StepResult.done
          { s with lines := [], c := Cursor.default, history := s.history.push entry }
          (String.intercalate "\n" entry) ∧
      (s.history.push entry).buffer = entry :: s.history.buffer ∧
      (s.history.push entry).buffer.length = s.history.buffer.length + 1 := by
  have hcur2 : Repl.cur s = entry := by simp [Repl.cur, hb, hcur]
  refine ⟨?_, push_buffer_of_lt _ _ hcap, ?_⟩
  · simp only [step]
    rw [if_neg (by simp [hatt])]
    rw [if_neg (by rw [hcur2]; simpa using htrim)]
    rw [if_neg (by simp [hb])]
    rw [if_pos ⟨hb, by rw [hcur]; simpa using hlast⟩]
    rw [show (s.history.cur).getD [] = entry from by rw [hcur]; rfl]
  · rw [push_buffer_of_lt _ _ hcap]
    simp

/-- A concrete browsing state over the single-entry store `[["x"]]` with room
to grow. -/
def sBrowseFinal : Repl :=
  { Repl.with_capacity "> " ". " 2 with
      history := ⟨[["x"]], 0, 3⟩, lines := ["yy"], c := ⟨true, 0, 1⟩ }

/-- Witness for C10: finalizing while browsing `["x"]` at index 0 duplicates
the entry — the store becomes `[["x"], ["x"]]`, two identical adjacent
entries. -/
theorem browsing_finalize_pushes_clone_witness :
    sBrowseFinal.attached = none ∧
      sBrowseFinal.c.use_history = true ∧
      sBrowseFinal.history.cur = some ["x"] ∧
      trimIsEmpty ((["x"] : List String).getD 0 "") = false ∧
      sBrowseFinal.c.lineno + 1 = (["x"] : List String).length ∧
      sBrowseFinal.history.buffer.length < sBrowseFinal.history.cap ∧
      step gZero sBrowseFinal Event.enter
        = StepResult.done
            { sBrowseFinal with
                lines := []
              , c := Cursor.default
              , history := sBrowseFinal.history.push ["x"] }
            (String.intercalate "\n" ["x"]) ∧
      (sBrowseFinal.history.push ["x"]).buffer = [["x"], ["x"]] :=
  ⟨rfl, rfl, by decide, by decide, by decide, by decide,
    (browsing_finalize_pushes_clone gZero sBrowseFinal ["x"] rfl rfl (by decide) (by decide)
      (by decide) (by decide)).1,
    ((browsing_finalize_pushes_clone gZero sBrowseFinal ["x"] rfl rfl (by decide) (by decide)
      (by decide) (by decide)).2.1).trans (by decide)⟩

end Shelp
